import Mathlib

/-!
Verification of the IPTV player backend (`src/backend/server.js`).

The development shallowly embeds the playlist parser `parseM3U` and the
relevant HTTP handler bodies as pure Lean functions.  Strings are handled
at the level of `List Char` (the JS string operations `split`, `trim`,
`startsWith` and the regular expressions used by the parser are modelled
by explicit recursive functions over character lists).  Effectful handler
code is modelled by functions from the request data (and, where relevant,
the upstream outcome) to the dispatched outbound request or the response
value.
-/

/-- Model of the JavaScript `String.prototype.trim` whitespace class
(space, tab, line terminators, and the common Unicode space characters). -/
def jsWhitespaceChar (c : Char) : Bool :=
  decide (c = ' ' ∨ c = '\t' ∨ c = '\n' ∨ c = '\r' ∨ c = '\x0b' ∨ c = '\x0c' ∨
    c = '\u00A0' ∨ c = '\u1680' ∨ ('\u2000' ≤ c ∧ c ≤ '\u200A') ∨ c = '\u2028' ∨
    c = '\u2029' ∨ c = '\u202F' ∨ c = '\u205F' ∨ c = '\u3000' ∨ c = '\uFEFF')

/-- Model of `l.trim()`: drop whitespace from both ends. -/
def jsTrim (l : List Char) : List Char :=
  ((l.dropWhile jsWhitespaceChar).reverse.dropWhile jsWhitespaceChar).reverse

/-- Model of `content.split('\n')`: split at every newline, keeping empty
pieces (as the JS `split` does). -/
def splitNl : List Char → List (List Char)
  | [] => [[]]
  | c :: rest =>
    if c = '\n' then [] :: splitNl rest
    else
      match splitNl rest with
      | [] => [[c]]
      | s :: ss => (c :: s) :: ss

/-- Model of `line.startsWith(p)`. -/
def startsWithL : List Char → List Char → Bool
  | p :: ps, c :: cs => p == c && startsWithL ps cs
  | [], _ => true
  | _, [] => false

/-- The metadata-line marker `"#EXTINF:"` of `parseM3U`. -/
def extinfMarker : List Char := "#EXTINF:".data

/-- The comment marker `"#"` tested by `line.startsWith('#')`. -/
def hashMarker : List Char := ['#']

/-- Characters matched by the JS regex `.` (no line terminators). -/
def dotChar (c : Char) : Bool :=
  decide (¬ (c = '\n' ∨ c = '\r' ∨ c = '\u2028' ∨ c = '\u2029'))

/-- Model of `line.match(/,(.+)$/)`: the leftmost comma whose (non-empty)
remainder consists of `.`-matchable characters begins the capture, which
greedily extends to the end of the line. -/
def titleCapture : List Char → Option (List Char)
  | [] => none
  | c :: rest =>
    if c = ',' ∧ rest ≠ [] ∧ rest.all dotChar = true then some rest
    else titleCapture rest

/-- For the regex `key="([^"]*)"`: the capture runs up to the next `"`;
if no closing quote follows, the candidate match position fails. -/
def takeUntilQuote : List Char → Option (List Char)
  | [] => none
  | c :: rest =>
    if c = '"' then some []
    else (takeUntilQuote rest).map (fun l => c :: l)

/-- Model of `line.match(/key="([^"]*)"/)` for a literal pattern
`pat = key="`: find the leftmost occurrence of `pat` and capture up to
the next `"`.  (If the leftmost occurrence has no closing quote after it
then no occurrence does, since every later occurrence of `pat` itself
contains a quote, so returning `none` there is faithful to the regex.) -/
def findCapture (pat : List Char) : List Char → Option (List Char)
  | [] => none
  | c :: rest =>
    if startsWithL pat (c :: rest) then takeUntilQuote (List.drop pat.length (c :: rest))
    else findCapture pat rest

/-- The channel-record object literal built by `parseM3U`
(`{ id, title, group, logo, url, tvgId, tvgName }`). -/
structure ChannelRecord where
  id : Nat
  title : String
  group : String
  logo : String
  url : String
  tvgId : String
  tvgName : String
deriving Repr, DecidableEq

/-- The record constructed at a `#EXTINF:` line: `id` is
`Date.now() + i` (the clock reading at line `i`, plus `i`); the other
fields come from the regex matches on the line, with the source's
defaults. -/
def mkChannel (clock : Nat → Nat) (i : Nat) (line : List Char) : ChannelRecord :=
  { id := clock i + i
    title :=
      match titleCapture line with
      | some t => String.mk (jsTrim t)
      | none => ""
    group :=
      match findCapture "group-title=\"".data line with
      | some v => String.mk v
      | none => "Uncategorized"
    logo :=
      match findCapture "tvg-logo=\"".data line with
      | some v => String.mk v
      | none => ""
    url := ""
    tvgId :=
      match findCapture "tvg-id=\"".data line with
      | some v => String.mk v
      | none => ""
    tvgName :=
      match findCapture "tvg-name=\"".data line with
      | some v => String.mk v
      | none => "" }

/-- The body of the `for` loop of `parseM3U`, processing the remaining
lines with the current line index and the open record `current`. -/
def parseLoop (clock : Nat → Nat) : List (List Char) → Nat → Option ChannelRecord → List ChannelRecord
  | [], _, _ => []
  | line :: rest, i, cur =>
    if startsWithL extinfMarker line then
      parseLoop clock rest (i + 1) (some (mkChannel clock i line))
    else if startsWithL hashMarker line then
      parseLoop clock rest (i + 1) cur
    else
      match cur with
      | some c => { c with url := String.mk line } :: parseLoop clock rest (i + 1) none
      | none => parseLoop clock rest (i + 1) none

/-- The line preprocessing of `parseM3U`:
`content.split('\n').map(l => l.trim()).filter(Boolean)`. -/
def m3uLines (content : String) : List (List Char) :=
  ((splitNl content.data).map jsTrim).filter (fun l => !l.isEmpty)

/-- `parseM3U(content)`, with the `Date.now()` readings supplied as a
function `clock` from the line index to the clock value observed while
that line is processed. -/
def parseM3U (clock : Nat → Nat) (content : String) : List ChannelRecord :=
  parseLoop clock (m3uLines content) 0 none

/-! ### Relay service: locator decoding and handler bodies -/

/-- Value of a hex digit, as used by percent-escapes. -/
def hexVal (c : Char) : Option Nat :=
  let n := c.toNat
  if 48 ≤ n ∧ n ≤ 57 then some (n - 48)
  else if 65 ≤ n ∧ n ≤ 70 then some (n - 55)
  else if 97 ≤ n ∧ n ≤ 102 then some (n - 87)
  else none

/-- A token of a percent-encoded string: a raw character or an escaped
byte `%XX`. -/
inductive PctTok where
  | raw (c : Char)
  | byte (b : Nat)
deriving Repr, DecidableEq

/-- First phase of `decodeURIComponent`: scan `%XX` escapes, failing
(`URIError`) on a `%` that is not followed by two hex digits. -/
def pctTokens : List Char → Option (List PctTok)
  | [] => some []
  | '%' :: h1 :: h2 :: rest =>
    match hexVal h1, hexVal h2 with
    | some a, some b => (pctTokens rest).map (fun ts => PctTok.byte (16 * a + b) :: ts)
    | _, _ => none
  | '%' :: _ => none
  | c :: rest => (pctTokens rest).map (fun ts => PctTok.raw c :: ts)

/-- UTF-8 continuation byte. -/
def contByte (b : Nat) : Bool := decide (0x80 ≤ b ∧ b ≤ 0xBF)

/-- Second phase of `decodeURIComponent`: escaped bytes must assemble
into valid UTF-8 sequences (no overlong forms, no surrogates), each
decoding to one character; raw characters pass through. -/
def asmTokens : List PctTok → Option (List Char)
  | [] => some []
  | PctTok.raw c :: ts => (asmTokens ts).map (fun l => c :: l)
  | PctTok.byte b :: ts =>
    if b < 0x80 then (asmTokens ts).map (fun l => Char.ofNat b :: l)
    else if 0xC2 ≤ b ∧ b ≤ 0xDF then
      match ts with
      | PctTok.byte b2 :: ts2 =>
        if contByte b2 then
          (asmTokens ts2).map (fun l => Char.ofNat ((b - 0xC0) * 64 + (b2 - 0x80)) :: l)
        else none
      | _ => none
    else if 0xE0 ≤ b ∧ b ≤ 0xEF then
      match ts with
      | PctTok.byte b2 :: PctTok.byte b3 :: ts2 =>
        if ((if b = 0xE0 then decide (0xA0 ≤ b2 ∧ b2 ≤ 0xBF)
             else if b = 0xED then decide (0x80 ≤ b2 ∧ b2 ≤ 0x9F)
             else contByte b2) && contByte b3) = true then
          (asmTokens ts2).map (fun l =>
            Char.ofNat ((b - 0xE0) * 4096 + (b2 - 0x80) * 64 + (b3 - 0x80)) :: l)
        else none
      | _ => none
    else if 0xF0 ≤ b ∧ b ≤ 0xF4 then
      match ts with
      | PctTok.byte b2 :: PctTok.byte b3 :: PctTok.byte b4 :: ts2 =>
        if ((if b = 0xF0 then decide (0x90 ≤ b2 ∧ b2 ≤ 0xBF)
             else if b = 0xF4 then decide (0x80 ≤ b2 ∧ b2 ≤ 0x8F)
             else contByte b2) && contByte b3 && contByte b4) = true then
          (asmTokens ts2).map (fun l =>
            Char.ofNat ((b - 0xF0) * 262144 + (b2 - 0x80) * 4096 + (b3 - 0x80) * 64 +
              (b4 - 0x80)) :: l)
        else none
      | _ => none
    else none

/-- Model of the JS builtin `decodeURIComponent`; `none` models a thrown
`URIError`. -/
def decodeURIComponent (s : String) : Option String :=
  match pctTokens s.data with
  | some ts => (asmTokens ts).map String.mk
  | none => none

/-- The URL handed to `axios.get` by `POST /api/m3u/url`: the handler
validates presence (`if (!url)` — absent or empty means a 400 response and
no outbound request) and then dispatches `url` as received, with no
decoding. -/
def m3uUrlOutboundUrl (url : Option String) : Option String :=
  match url with
  | none => none
  | some u => if u = "" then none else some u

/-- The URL handed to `axios` by `GET /api/proxy/stream`: after the same
presence check, the handler dispatches `decodeURIComponent(url)` (a decode
failure throws, is caught, and nothing is dispatched). -/
def proxyStreamOutboundUrl (url : Option String) : Option String :=
  match url with
  | none => none
  | some u => if u = "" then none else decodeURIComponent u

/-- The URL handed to `axios.head` by `POST /api/stream/check`: no
presence check and no decoding — the locator is dispatched as received. -/
def streamCheckOutboundUrl (url : Option String) : Option String := url

/-- The URL handed to `axios.get` by `POST /api/epg/fetch`: presence
check, then the locator is dispatched as received, with no decoding. -/
def epgFetchOutboundUrl (url : Option String) : Option String :=
  match url with
  | none => none
  | some u => if u = "" then none else some u

/-- The URL handed to `axios` by `GET /api/download`: presence check,
then `decodeURIComponent(url)` is dispatched. -/
def downloadOutboundUrl (url : Option String) : Option String :=
  match url with
  | none => none
  | some u => if u = "" then none else decodeURIComponent u

/-- Outcome of the upstream `axios.head` probe: a response, or an error
carrying `err.message`. -/
inductive UpstreamHead where
  | ok (contentType : Option String) (status : Nat)
  | err (message : String)
deriving Repr, DecidableEq

/-- Body of the JSON response of `POST /api/stream/check`. -/
inductive CheckBody where
  | alive (contentType : Option String) (status : Nat)
  | dead (error : String)
deriving Repr, DecidableEq

/-- The handler body of `POST /api/stream/check`: on upstream success it
responds `200 {alive:true, contentType, status}`; any thrown error is
caught and answered `200 {alive:false, error: err.message}`. -/
def streamCheckRespond (url : Option String) (outcome : UpstreamHead) : Nat × CheckBody :=
  match url, outcome with
  | _, UpstreamHead.ok ct st => (200, CheckBody.alive ct st)
  | _, UpstreamHead.err m => (200, CheckBody.dead m)

/-- Body of the JSON response of `POST /api/m3u/text`. -/
inductive TextBody where
  | err (error : String)
  | ok (channels : List ChannelRecord) (count : Nat)
deriving Repr, DecidableEq

/-- The handler body of `POST /api/m3u/text`: `if (!content)` — content
absent (`undefined`) or the empty string — responds
`400 {error:'Content required'}`; otherwise `200` with the parsed
channels and their count. -/
def m3uTextHandler (clock : Nat → Nat) (content : Option String) : Nat × TextBody :=
  match content with
  | none => (400, TextBody.err "Content required")
  | some c =>
    if c = "" then (400, TextBody.err "Content required")
    else (200, TextBody.ok (parseM3U clock c) (parseM3U clock c).length)

/-! ### Concrete evaluations -/

example : parseM3U (fun _ => 0) "#EXTINF:-1,A,B\nhttp://u" =
    [{ id := 0, title := "A,B", group := "Uncategorized", logo := "", url := "http://u",
       tvgId := "", tvgName := "" }] := by decide

example : parseM3U (fun _ => 0) "#EXTINF:-1 tvg-id=\"5\",Title\nhttp://u" =
    [{ id := 0, title := "Title", group := "Uncategorized", logo := "", url := "http://u",
       tvgId := "5", tvgName := "" }] := by decide

example : parseM3U (fun _ => 0) "" = [] := by decide

example : parseM3U (fun _ => 7) "#EXTINF:-1,A\n#EXTINF:-1,B\nhttp://u\n#comment\nhttp://bare" =
    [{ id := 8, title := "B", group := "Uncategorized", logo := "", url := "http://u",
       tvgId := "", tvgName := "" }] := by decide

/-! ### Basic lemmas about the parser loop -/

theorem stringMk_ne_empty {l : List Char} (h : l ≠ []) : String.mk l ≠ "" := by
  intro hc
  exact h (congrArg String.data hc)

theorem m3uLines_ne_nil {content : String} {l : List Char} (h : l ∈ m3uLines content) :
    l ≠ [] := by
  rcases List.mem_filter.mp h with ⟨-, hb⟩
  intro hl
  subst hl
  simp at hb

theorem parseLoop_url_sublist (clock : Nat → Nat) (lines : List (List Char)) :
    ∀ (i : Nat) (cur : Option ChannelRecord),
      ((parseLoop clock lines i cur).map (fun ch => ch.url)).Sublist (lines.map String.mk) := by
  induction lines with
  | nil => intro i cur; simp [parseLoop]
  | cons line rest ih =>
    intro i cur
    simp only [parseLoop, List.map_cons]
    by_cases h1 : startsWithL extinfMarker line = true
    · rw [if_pos h1]
      exact (ih (i + 1) _).cons _
    · rw [if_neg h1]
      by_cases h2 : startsWithL hashMarker line = true
      · rw [if_pos h2]
        exact (ih (i + 1) _).cons _
      · rw [if_neg h2]
        cases cur with
        | some c =>
          show (({ c with url := String.mk line } :: parseLoop clock rest (i + 1) none).map
              (fun ch => ch.url)).Sublist (String.mk line :: rest.map String.mk)
          simpa using (ih (i + 1) none).cons₂ (String.mk line)
        | none =>
          exact (ih (i + 1) none).cons _

theorem parseLoop_url_ne (clock : Nat → Nat) (lines : List (List Char))
    (hne : ∀ l ∈ lines, l ≠ []) :
    ∀ (i : Nat) (cur : Option ChannelRecord) (ch : ChannelRecord),
      ch ∈ parseLoop clock lines i cur → ch.url ≠ "" := by
  induction lines with
  | nil => intro i cur ch hch; simp [parseLoop] at hch
  | cons line rest ih =>
    intro i cur ch hch
    have hrest : ∀ l ∈ rest, l ≠ [] := fun l hl => hne l (List.mem_cons_of_mem _ hl)
    simp only [parseLoop] at hch
    by_cases h1 : startsWithL extinfMarker line = true
    · rw [if_pos h1] at hch
      exact ih hrest (i + 1) _ ch hch
    · rw [if_neg h1] at hch
      by_cases h2 : startsWithL hashMarker line = true
      · rw [if_pos h2] at hch
        exact ih hrest (i + 1) _ ch hch
      · rw [if_neg h2] at hch
        cases cur with
        | some c =>
          replace hch : ch ∈ ({ c with url := String.mk line } ::
              parseLoop clock rest (i + 1) none) := hch
          rcases List.mem_cons.mp hch with hch | hch
          · subst hch
            exact stringMk_ne_empty (hne line (List.mem_cons_self _ _))
          · exact ih hrest (i + 1) none ch hch
        | none =>
          exact ih hrest (i + 1) none ch hch

/-- C1: every record emitted by `parseM3U` has a non-empty `url`, and the
emitted records appear in document order: the sequence of their `url`
fields is an order-preserving subsequence of the document's (trimmed,
non-empty) lines, each record being closed by its own URI line. -/
theorem spec_C1 (clock : Nat → Nat) (content : String) :
    (∀ ch ∈ parseM3U clock content, ch.url ≠ "") ∧
      ((parseM3U clock content).map (fun ch => ch.url)).Sublist
        ((m3uLines content).map String.mk) := by
  constructor
  · intro ch hch
    exact parseLoop_url_ne clock (m3uLines content) (fun l hl => m3uLines_ne_nil hl) 0 none ch hch
  · exact parseLoop_url_sublist clock (m3uLines content) 0 none

/-- Witness for C1 at a concrete document: the record emitted for
`#EXTINF:-1,A` closed by `http://u` has a non-empty `url`. -/
theorem spec_C1_witness :
    ({ id := 0, title := "A", group := "Uncategorized", logo := "", url := "http://u",
       tvgId := "", tvgName := "" } : ChannelRecord).url ≠ "" :=
  (spec_C1 (fun _ => 0) "#EXTINF:-1,A\nhttp://u").1 _ (by decide)

theorem parseLoop_nil_of_no_extinf (clock : Nat → Nat) (lines : List (List Char))
    (hno : ∀ l ∈ lines, startsWithL extinfMarker l = false) :
    ∀ i : Nat, parseLoop clock lines i none = [] := by
  induction lines with
  | nil => intro i; simp [parseLoop]
  | cons line rest ih =>
    intro i
    have hrest : ∀ l ∈ rest, startsWithL extinfMarker l = false :=
      fun l hl => hno l (List.mem_cons_of_mem _ hl)
    have h1 : ¬ startsWithL extinfMarker line = true := by
      simp [hno line (List.mem_cons_self _ _)]
    simp only [parseLoop]
    rw [if_neg h1]
    by_cases h2 : startsWithL hashMarker line = true
    · rw [if_pos h2]
      exact ih hrest (i + 1)
    · rw [if_neg h2]
      exact ih hrest (i + 1)

theorem parseLoop_append_ex (clock : Nat → Nat) (xs : List (List Char)) :
    ∀ (ys : List (List Char)) (i : Nat) (cur : Option ChannelRecord),
      ∃ cur2, parseLoop clock (xs ++ ys) i cur =
        parseLoop clock xs i cur ++ parseLoop clock ys (i + xs.length) cur2 := by
  induction xs with
  | nil => intro ys i cur; exact ⟨cur, by simp [parseLoop]⟩
  | cons line rest ih =>
    intro ys i cur
    have hidx : i + 1 + rest.length = i + (line :: rest).length := by
      simp
      omega
    simp only [List.cons_append, parseLoop, List.append_eq]
    by_cases h1 : startsWithL extinfMarker line = true
    · obtain ⟨cur2, heq⟩ := ih ys (i + 1) (some (mkChannel clock i line))
      rw [if_pos h1, if_pos h1, heq, hidx]
      exact ⟨cur2, rfl⟩
    · rw [if_neg h1, if_neg h1]
      by_cases h2 : startsWithL hashMarker line = true
      · obtain ⟨cur2, heq⟩ := ih ys (i + 1) cur
        rw [if_pos h2, if_pos h2, heq, hidx]
        exact ⟨cur2, rfl⟩
      · rw [if_neg h2, if_neg h2]
        cases cur with
        | some c =>
          obtain ⟨cur2, heq⟩ := ih ys (i + 1) none
          refine ⟨cur2, ?_⟩
          show { c with url := String.mk line } :: parseLoop clock (rest ++ ys) (i + 1) none =
            ({ c with url := String.mk line } :: parseLoop clock rest (i + 1) none) ++
              parseLoop clock ys (i + (line :: rest).length) cur2
          rw [heq, hidx]
          simp
        | none =>
          obtain ⟨cur2, heq⟩ := ih ys (i + 1) none
          refine ⟨cur2, ?_⟩
          show parseLoop clock (rest ++ ys) (i + 1) none =
            parseLoop clock rest (i + 1) none ++ parseLoop clock ys (i + (line :: rest).length) cur2
          rw [heq, hidx]

theorem parseLoop_hash_ex (clock : Nat → Nat) (ls : List (List Char))
    (hhash : ∀ l ∈ ls, startsWithL hashMarker l = true) :
    ∀ (rest : List (List Char)) (i : Nat) (cur : Option ChannelRecord),
      ∃ cur2, parseLoop clock (ls ++ rest) i cur = parseLoop clock rest (i + ls.length) cur2 := by
  induction ls with
  | nil => intro rest i cur; exact ⟨cur, by simp⟩
  | cons l ls2 ih =>
    intro rest i cur
    have hls2 : ∀ x ∈ ls2, startsWithL hashMarker x = true :=
      fun x hx => hhash x (List.mem_cons_of_mem _ hx)
    have hidx : i + 1 + ls2.length = i + (l :: ls2).length := by
      simp
      omega
    simp only [List.cons_append, parseLoop, List.append_eq]
    by_cases h1 : startsWithL extinfMarker l = true
    · obtain ⟨cur2, heq⟩ := ih hls2 rest (i + 1) (some (mkChannel clock i l))
      rw [if_pos h1, heq, hidx]
      exact ⟨cur2, rfl⟩
    · rw [if_neg h1, if_pos (hhash l (List.mem_cons_self _ _))]
      obtain ⟨cur2, heq⟩ := ih hls2 rest (i + 1) cur
      rw [heq, hidx]
      exact ⟨cur2, rfl⟩

theorem parseLoop_drop_cur (clock : Nat → Nat) (post : List (List Char))
    (hpost : post = [] ∨ ∃ m post2, post = m :: post2 ∧ startsWithL extinfMarker m = true) :
    ∀ (j : Nat) (cur : Option ChannelRecord),
      parseLoop clock post j cur = parseLoop clock post j none := by
  intro j cur
  rcases hpost with rfl | ⟨m, post2, rfl, hm⟩
  · simp [parseLoop]
  · simp only [parseLoop]
    rw [if_pos hm, if_pos hm]

/-- C2: a metadata line followed only by comment lines and then by either
another metadata line or end-of-input produces no emitted record: the
output of `parseM3U` is exactly the records of the part before the
dangling metadata line followed by the records of the part from the next
metadata line on, entered with no open record. -/
theorem spec_C2 (clock : Nat → Nat) (content : String)
    (pre : List (List Char)) (meta : List Char) (comments post : List (List Char))
    (hsplit : m3uLines content = pre ++ meta :: (comments ++ post))
    (hmeta : startsWithL extinfMarker meta = true)
    (hcomments : ∀ c ∈ comments, startsWithL hashMarker c = true)
    (hpost : post = [] ∨ ∃ m post2, post = m :: post2 ∧ startsWithL extinfMarker m = true) :
    parseM3U clock content =
      parseLoop clock pre 0 none ++
        parseLoop clock post (pre.length + (comments.length + 1)) none := by
  unfold parseM3U
  rw [hsplit]
  obtain ⟨cur2, h1⟩ := parseLoop_append_ex clock pre (meta :: (comments ++ post)) 0 none
  rw [h1]
  congr 1
  simp only [parseLoop]
  rw [if_pos hmeta]
  obtain ⟨cur3, h2⟩ :=
    parseLoop_hash_ex clock comments hcomments post (0 + pre.length + 1)
      (some (mkChannel clock (0 + pre.length) meta))
  rw [h2, parseLoop_drop_cur clock post hpost]
  congr 1
  omega

/-- Witness for C2 at a concrete document: `#EXTINF:-1,A` is immediately
followed by another metadata line, so only the second entry is emitted. -/
theorem spec_C2_witness :
    parseM3U (fun _ => 0) "#EXTINF:-1,A\n#EXTINF:-1,B\nhttp://u" =
      parseLoop (fun _ => 0) [] 0 none ++
        parseLoop (fun _ => 0) ["#EXTINF:-1,B".data, "http://u".data] 1 none :=
  spec_C2 (fun _ => 0) "#EXTINF:-1,A\n#EXTINF:-1,B\nhttp://u"
    [] "#EXTINF:-1,A".data [] ["#EXTINF:-1,B".data, "http://u".data]
    (by decide) (by decide) (by decide)
    (Or.inr ⟨"#EXTINF:-1,B".data, ["http://u".data], rfl, by decide⟩)

theorem parseLoop_skip_pre (clock : Nat → Nat) (pre : List (List Char))
    (hpre : ∀ l ∈ pre, startsWithL extinfMarker l = false) :
    ∀ (rest : List (List Char)) (i : Nat),
      parseLoop clock (pre ++ rest) i none = parseLoop clock rest (i + pre.length) none := by
  induction pre with
  | nil => intro rest i; simp
  | cons l pre2 ih =>
    intro rest i
    have h1 : ¬ startsWithL extinfMarker l = true := by
      simp [hpre l (List.mem_cons_self _ _)]
    have hpre2 : ∀ x ∈ pre2, startsWithL extinfMarker x = false :=
      fun x hx => hpre x (List.mem_cons_of_mem _ hx)
    have hidx : i + 1 + pre2.length = i + (l :: pre2).length := by
      simp
      omega
    simp only [List.cons_append, parseLoop, List.append_eq]
    rw [if_neg h1]
    by_cases h2 : startsWithL hashMarker l = true
    · rw [if_pos h2, ih hpre2 rest (i + 1), hidx]
    · rw [if_neg h2]
      show parseLoop clock (pre2 ++ rest) (i + 1) none = _
      rw [ih hpre2 rest (i + 1), hidx]

/-- C4: `parseM3U` is a total Lean function (it cannot raise); on the
empty document it returns `[]`; on a document all of whose lines are
comment lines it returns `[]`; on a document with no metadata marker at
all it returns `[]`; in any document — also one containing entries — the
lines before the first metadata marker (comments or bare URI lines; no
record is open there) produce no records: the output is exactly that of
the remaining lines entered with no open record; and at any position of
any document, a bare URI line reached with no open record produces no
record and just advances the parse. -/
theorem spec_C4 (clock : Nat → Nat) :
    parseM3U clock "" = [] ∧
      (∀ content, (∀ l ∈ m3uLines content, startsWithL hashMarker l = true) →
        parseM3U clock content = []) ∧
      (∀ content, (∀ l ∈ m3uLines content, startsWithL extinfMarker l = false) →
        parseM3U clock content = []) ∧
      (∀ content pre rest, m3uLines content = pre ++ rest →
        (∀ l ∈ pre, startsWithL extinfMarker l = false) →
        parseM3U clock content = parseLoop clock rest pre.length none) ∧
      (∀ (uri : List Char) (rest : List (List Char)) (i : Nat),
        startsWithL extinfMarker uri = false → startsWithL hashMarker uri = false →
        parseLoop clock (uri :: rest) i none = parseLoop clock rest (i + 1) none) := by
  refine ⟨rfl, ?_, ?_, ?_, ?_⟩
  · intro content hhash
    obtain ⟨cur2, h⟩ := parseLoop_hash_ex clock (m3uLines content) hhash [] 0 none
    unfold parseM3U
    rw [← List.append_nil (m3uLines content), h]
    simp [parseLoop]
  · intro content hno
    exact parseLoop_nil_of_no_extinf clock (m3uLines content) hno 0
  · intro content pre rest hsplit hpre
    unfold parseM3U
    rw [hsplit, parseLoop_skip_pre clock pre hpre rest 0, Nat.zero_add]
  · intro uri rest i h1 h2
    simp only [parseLoop]
    rw [if_neg (by simp [h1]), if_neg (by simp [h2])]

/-- Witness for C4 on a document that does contain an entry: the junk
line and the bare URI line before the first metadata marker produce no
records — the output is that of the two entry lines entered with no open
record. -/
theorem spec_C4_witness :
    parseM3U (fun _ => 0) "junk\nhttp://bare\n#EXTINF:-1,A\nhttp://u" =
      parseLoop (fun _ => 0) ["#EXTINF:-1,A".data, "http://u".data] 2 none :=
  (spec_C4 (fun _ => 0)).2.2.2.1 "junk\nhttp://bare\n#EXTINF:-1,A\nhttp://u"
    ["junk".data, "http://bare".data] ["#EXTINF:-1,A".data, "http://u".data]
    (by decide) (by decide)

/-! ### Lemmas about a single well-formed two-line entry -/

theorem startsWithL_append_self (p r : List Char) : startsWithL p (p ++ r) = true := by
  induction p with
  | nil =>
    cases r with
    | nil => rfl
    | cons c cs => rfl
  | cons c cs ih => simp [startsWithL, ih]

theorem splitNl_no_nl {ys : List Char} (h : '\n' ∉ ys) : splitNl ys = [ys] := by
  induction ys with
  | nil => rfl
  | cons c cs ih =>
    have hc : ¬ c = '\n' := fun hh => h (hh ▸ List.mem_cons_self _ _)
    simp only [splitNl]
    rw [if_neg hc, ih (fun hm => h (List.mem_cons_of_mem _ hm))]

theorem splitNl_append {xs : List Char} (ys : List Char) (h : '\n' ∉ xs) :
    splitNl (xs ++ '\n' :: ys) = xs :: splitNl ys := by
  induction xs with
  | nil => simp [splitNl]
  | cons c cs ih =>
    have hc : ¬ c = '\n' := fun hh => h (hh ▸ List.mem_cons_self _ _)
    simp only [List.cons_append, splitNl, List.append_eq]
    rw [if_neg hc, ih (fun hm => h (List.mem_cons_of_mem _ hm))]

theorem all_dot_no_nl {t : List Char} (h : t.all dotChar = true) : '\n' ∉ t := by
  intro hm
  have hd := List.all_eq_true.mp h _ hm
  exact absurd hd (by decide)

theorem extinf_false_of_hash_false {u : List Char}
    (huh : startsWithL hashMarker u = false) : startsWithL extinfMarker u = false := by
  cases u with
  | nil => rfl
  | cons c cs =>
    have hne : ('#' == c) = false := by
      simpa [startsWithL, hashMarker] using huh
    have hm : extinfMarker = '#' :: "EXTINF:".data := rfl
    rw [hm]
    simp [startsWithL, hne]

theorem titleCapture_after_comma {xs t : List Char} (hxs : ∀ c ∈ xs, c ≠ ',')
    (ht : t ≠ []) (htd : t.all dotChar = true) :
    titleCapture (xs ++ ',' :: t) = some t := by
  induction xs with
  | nil =>
    simp only [List.nil_append, titleCapture]
    rw [if_pos ⟨trivial, ht, htd⟩]
  | cons x xs2 ih =>
    have hx : x ≠ ',' := hxs x (List.mem_cons_self _ _)
    simp only [List.cons_append, titleCapture]
    rw [if_neg (fun hcontra => hx hcontra.1)]
    exact ih (fun c hc => hxs c (List.mem_cons_of_mem _ hc))

theorem parseM3U_two_line (clock : Nat → Nat) (meta u : List Char)
    (hmnl : '\n' ∉ meta) (hmtrim : jsTrim meta = meta)
    (hmx : startsWithL extinfMarker meta = true)
    (hunl : '\n' ∉ u) (hutrim : jsTrim u = u) (hune : u ≠ [])
    (huh : startsWithL hashMarker u = false) :
    parseM3U clock (String.mk (meta ++ '\n' :: u)) =
      [{ mkChannel clock 0 meta with url := String.mk u }] := by
  have hmne : meta ≠ [] := by
    intro h
    rw [h] at hmx
    exact absurd hmx (by decide)
  have h1 : (!meta.isEmpty) = true := by
    cases meta with
    | nil => exact absurd rfl hmne
    | cons _ _ => rfl
  have h2 : (!u.isEmpty) = true := by
    cases u with
    | nil => exact absurd rfl hune
    | cons _ _ => rfl
  have hlines : m3uLines (String.mk (meta ++ '\n' :: u)) = [meta, u] := by
    unfold m3uLines
    have hdata : (String.mk (meta ++ '\n' :: u)).data = meta ++ '\n' :: u := rfl
    rw [hdata, splitNl_append u hmnl, splitNl_no_nl hunl]
    simp only [List.map_cons, List.map_nil, hmtrim, hutrim]
    rw [List.filter_cons, List.filter_cons, List.filter_nil]
    rw [if_pos h1, if_pos h2]
  have hx1 : ¬ startsWithL extinfMarker u = true := by
    simp [extinf_false_of_hash_false huh]
  have hx2 : ¬ startsWithL hashMarker u = true := by
    simp [huh]
  unfold parseM3U
  rw [hlines]
  simp only [parseLoop]
  rw [if_pos hmx, if_neg hx1, if_neg hx2]

theorem entry_meta_no_nl {pre t : List Char} (hpnl : '\n' ∉ pre) (htd : t.all dotChar = true) :
    '\n' ∉ "#EXTINF:".data ++ pre ++ ',' :: t := by
  intro hm
  rcases List.mem_append.mp hm with hm | hm
  · rcases List.mem_append.mp hm with hm | hm
    · revert hm
      decide
    · exact hpnl hm
  · rcases List.mem_cons.mp hm with hm | hm
    · exact absurd hm (by decide)
    · exact all_dot_no_nl htd hm

theorem entry_meta_extinf (pre t : List Char) :
    startsWithL extinfMarker ("#EXTINF:".data ++ pre ++ ',' :: t) = true := by
  rw [List.append_assoc]
  exact startsWithL_append_self extinfMarker (pre ++ ',' :: t)

theorem mkChannel_entry_title (clock : Nat → Nat) (i : Nat) (pre t : List Char)
    (hpre : ∀ c ∈ pre, c ≠ ',') (ht : t ≠ []) (htd : t.all dotChar = true) :
    (mkChannel clock i ("#EXTINF:".data ++ pre ++ ',' :: t)).title = String.mk (jsTrim t) := by
  have hx : ∀ c ∈ "#EXTINF:".data ++ pre, c ≠ ',' := by
    intro c hc
    rcases List.mem_append.mp hc with hc | hc
    · intro h
      subst h
      revert hc
      decide
    · exact hpre c hc
  have hcap : titleCapture ("#EXTINF:".data ++ pre ++ ',' :: t) = some t :=
    titleCapture_after_comma hx ht htd
  simp only [mkChannel]
  rw [hcap]

/-- C3 is refuted by the counterexample below; the amended statement: on a
metadata line the title is everything after the FIRST comma (that is
followed by at least one character), trimmed — not everything after the
last comma.  Here `t` may itself contain commas and they stay in the
title. -/
theorem spec_C3_amended (clock : Nat → Nat) (pre t u : List Char)
    (hpre : ∀ c ∈ pre, c ≠ ',') (ht : t ≠ []) (htd : t.all dotChar = true)
    (hpnl : '\n' ∉ pre)
    (hmtrim : jsTrim ("#EXTINF:".data ++ pre ++ ',' :: t) = "#EXTINF:".data ++ pre ++ ',' :: t)
    (hunl : '\n' ∉ u) (hutrim : jsTrim u = u) (hune : u ≠ [])
    (huh : startsWithL hashMarker u = false) :
    (parseM3U clock (String.mk (("#EXTINF:".data ++ pre ++ ',' :: t) ++ '\n' :: u))).map
      (fun ch => ch.title) = [String.mk (jsTrim t)] := by
  rw [parseM3U_two_line clock _ u (entry_meta_no_nl hpnl htd) hmtrim
    (entry_meta_extinf pre t) hunl hutrim hune huh]
  simp only [List.map_cons, List.map_nil]
  rw [mkChannel_entry_title clock 0 pre t hpre ht htd]

/-- Counterexample to C3 as stated: on `#EXTINF:-1,A,B` (two commas) the
parser's title is `A,B` — everything after the first comma — not the
suffix `B` after the last comma that the claim demands. -/
theorem spec_C3_counterexample :
    (parseM3U (fun _ => 0) "#EXTINF:-1,A,B\nhttp://u").map (fun ch => ch.title) = ["A,B"] ∧
      ("A,B" : String) ≠ "B" := by decide

/-- Witness for the amended C3 on a concrete entry whose title segment
contains a comma. -/
theorem spec_C3_amended_witness :
    (parseM3U (fun _ => 0)
        (String.mk (("#EXTINF:".data ++ "-1".data ++ ',' :: "A,B".data) ++
          '\n' :: "http://u".data))).map (fun ch => ch.title) = ["A,B"] :=
  spec_C3_amended (fun _ => 0) "-1".data "A,B".data "http://u".data
    (by decide) (by decide) (by decide) (by decide) (by decide)
    (by decide) (by decide) (by decide) (by decide)

/-- C5: round-trip for a well-formed two-line entry.  The metadata line is
`#EXTINF:` followed by a comma-free attribute/duration segment `pre`, a
comma and a (trimmed, non-empty) title `t`; the URI line is a trimmed,
non-empty, non-comment line `u`.  `parseM3U` emits exactly one record,
whose `title` is `t` verbatim and whose `url` is `u` verbatim. -/
theorem spec_C5 (clock : Nat → Nat) (pre t u : List Char)
    (hpre : ∀ c ∈ pre, c ≠ ',') (ht : t ≠ []) (htd : t.all dotChar = true)
    (httrim : jsTrim t = t)
    (hpnl : '\n' ∉ pre)
    (hmtrim : jsTrim ("#EXTINF:".data ++ pre ++ ',' :: t) = "#EXTINF:".data ++ pre ++ ',' :: t)
    (hunl : '\n' ∉ u) (hutrim : jsTrim u = u) (hune : u ≠ [])
    (huh : startsWithL hashMarker u = false) :
    (parseM3U clock (String.mk (("#EXTINF:".data ++ pre ++ ',' :: t) ++ '\n' :: u))).map
      (fun ch => (ch.title, ch.url)) = [(String.mk t, String.mk u)] := by
  rw [parseM3U_two_line clock _ u (entry_meta_no_nl hpnl htd) hmtrim
    (entry_meta_extinf pre t) hunl hutrim hune huh]
  simp only [List.map_cons, List.map_nil]
  rw [mkChannel_entry_title clock 0 pre t hpre ht htd, httrim]

/-- Witness for C5 on a concrete entry. -/
theorem spec_C5_witness :
    (parseM3U (fun _ => 0)
        (String.mk (("#EXTINF:".data ++ "-1 tvg-logo=\"x\"".data ++ ',' :: "News 24".data) ++
          '\n' :: "http://example.com/stream.m3u8".data))).map
      (fun ch => (ch.title, ch.url)) = [("News 24", "http://example.com/stream.m3u8")] :=
  spec_C5 (fun _ => 0) "-1 tvg-logo=\"x\"".data "News 24".data
    "http://example.com/stream.m3u8".data
    (by decide) (by decide) (by decide) (by decide) (by decide)
    (by decide) (by decide) (by decide) (by decide) (by decide)

/-- C8: attribute extraction is independent per field: on the metadata
line `#EXTINF:-1 tvg-id="5",Title` closed by any URI line `u`, the record
has `tvgId = "5"`, `title = "Title"`, and the defaults
`group = "Uncategorized"` and `logo = ""`; its `url` is `u`. -/
theorem spec_C8 (clock : Nat → Nat) (u : List Char)
    (hunl : '\n' ∉ u) (hutrim : jsTrim u = u) (hune : u ≠ [])
    (huh : startsWithL hashMarker u = false) :
    (parseM3U clock (String.mk ("#EXTINF:-1 tvg-id=\"5\",Title".data ++ '\n' :: u))).map
      (fun ch => (ch.title, ch.group, ch.logo, ch.tvgId, ch.url)) =
      [("Title", "Uncategorized", "", "5", String.mk u)] := by
  rw [parseM3U_two_line clock _ u (by decide) (by decide) (by decide) hunl hutrim hune huh]
  rfl

/-- Witness for C8 with the URI line `http://u`. -/
theorem spec_C8_witness :
    (parseM3U (fun _ => 0)
        (String.mk ("#EXTINF:-1 tvg-id=\"5\",Title".data ++ '\n' :: "http://u".data))).map
      (fun ch => (ch.title, ch.group, ch.logo, ch.tvgId, ch.url)) =
      [("Title", "Uncategorized", "", "5", "http://u")] :=
  spec_C8 (fun _ => 0) "http://u".data (by decide) (by decide) (by decide) (by decide)

/-! ### Ids within one parse call -/

theorem parseLoop_ids (clock : Nat → Nat)
    (hm : ∀ i j : Nat, i ≤ j → clock i ≤ clock j) (lines : List (List Char)) :
    ∀ (i : Nat) (cur : Option ChannelRecord),
      (∀ c, cur = some c → c.id < clock i + i) →
      ((parseLoop clock lines i cur).map (fun ch => ch.id)).Pairwise (· < ·) ∧
        ∀ ch ∈ parseLoop clock lines i cur,
          (∃ c, cur = some c ∧ ch.id = c.id) ∨ clock i + i ≤ ch.id := by
  induction lines with
  | nil =>
    intro i cur hcur
    constructor
    · simp [parseLoop]
    · intro ch hch
      simp [parseLoop] at hch
  | cons line rest ih =>
    intro i cur hcur
    have hstep : clock i + i < clock (i + 1) + (i + 1) := by
      have := hm i (i + 1) (Nat.le_succ i)
      omega
    have hvac : ∀ d : ChannelRecord, (none : Option ChannelRecord) = some d →
        d.id < clock (i + 1) + (i + 1) := by
      intro d hd
      cases hd
    simp only [parseLoop]
    by_cases h1 : startsWithL extinfMarker line = true
    · rw [if_pos h1]
      have hnew : ∀ c, (some (mkChannel clock i line) : Option ChannelRecord) = some c →
          c.id < clock (i + 1) + (i + 1) := by
        intro c hc
        injection hc with hc2
        have : c.id = clock i + i := by rw [← hc2]; rfl
        omega
      obtain ⟨hpw, hmem⟩ := ih (i + 1) _ hnew
      refine ⟨hpw, ?_⟩
      intro ch hch
      rcases hmem ch hch with ⟨c, hc, hid⟩ | hge
      · right
        injection hc with hc2
        have : c.id = clock i + i := by rw [← hc2]; rfl
        omega
      · right
        omega
    · rw [if_neg h1]
      by_cases h2 : startsWithL hashMarker line = true
      · rw [if_pos h2]
        have hcur2 : ∀ c, cur = some c → c.id < clock (i + 1) + (i + 1) := by
          intro c hc
          have := hcur c hc
          omega
        obtain ⟨hpw, hmem⟩ := ih (i + 1) cur hcur2
        refine ⟨hpw, ?_⟩
        intro ch hch
        rcases hmem ch hch with h | hge
        · exact Or.inl h
        · right
          omega
      · rw [if_neg h2]
        cases cur with
        | some c =>
          obtain ⟨hpw, hmem⟩ := ih (i + 1) none hvac
          have hcid : c.id < clock i + i := hcur c rfl
          have htail : ∀ ch ∈ parseLoop clock rest (i + 1) none,
              clock (i + 1) + (i + 1) ≤ ch.id := by
            intro ch hch
            rcases hmem ch hch with ⟨d, hd, -⟩ | hge
            · cases hd
            · exact hge
          constructor
          · show ((({ c with url := String.mk line }) ::
                parseLoop clock rest (i + 1) none).map (fun ch => ch.id)).Pairwise (· < ·)
            simp only [List.map_cons]
            rw [List.pairwise_cons]
            refine ⟨?_, hpw⟩
            intro b hb
            rcases List.mem_map.mp hb with ⟨ch, hch, rfl⟩
            have hup : ({ c with url := String.mk line } : ChannelRecord).id = c.id := rfl
            have := htail ch hch
            rw [hup]
            omega
          · intro ch hch
            replace hch : ch ∈ ({ c with url := String.mk line }) ::
                parseLoop clock rest (i + 1) none := hch
            rcases List.mem_cons.mp hch with rfl | hch
            · exact Or.inl ⟨c, rfl, rfl⟩
            · right
              have := htail ch hch
              omega
        | none =>
          obtain ⟨hpw, hmem⟩ := ih (i + 1) none hvac
          refine ⟨hpw, ?_⟩
          intro ch hch
          rcases hmem ch hch with ⟨d, hd, -⟩ | hge
          · cases hd
          · right
            omega

/-- C9: under a non-decreasing clock, the ids of the records emitted by a
single `parseM3U` call (each the sum of the clock reading at its metadata
line and that line's index) are strictly increasing in emission order,
hence pairwise distinct. -/
theorem spec_C9 (clock : Nat → Nat) (hm : ∀ i j : Nat, i ≤ j → clock i ≤ clock j)
    (content : String) :
    ((parseM3U clock content).map (fun ch => ch.id)).Pairwise (· < ·) ∧
      ((parseM3U clock content).map (fun ch => ch.id)).Pairwise (· ≠ ·) := by
  have h := (parseLoop_ids clock hm (m3uLines content) 0 none (by intro c hc; cases hc)).1
  exact ⟨h, h.imp (fun hlt => Nat.ne_of_lt hlt)⟩

/-- Witness for C9 with the identity clock and a two-entry document. -/
theorem spec_C9_witness :
    ((parseM3U (fun n => n) "#EXTINF:-1,A\nhttp://u\n#EXTINF:-1,B\nhttp://v").map
        (fun ch => ch.id)).Pairwise (· < ·) ∧
      ((parseM3U (fun n => n) "#EXTINF:-1,A\nhttp://u\n#EXTINF:-1,B\nhttp://v").map
        (fun ch => ch.id)).Pairwise (· ≠ ·) :=
  spec_C9 (fun n => n) (fun _ _ h => h) "#EXTINF:-1,A\nhttp://u\n#EXTINF:-1,B\nhttp://v"

example : decodeURIComponent "http%3A%2F%2Fexample.com" = some "http://example.com" := by decide
example : decodeURIComponent "a%E2%82%ACb" = some "a€b" := by decide
example : decodeURIComponent "%E0%80%80" = none := by decide

/-- Counterexample to C6 as stated: `POST /api/m3u/url` (fetchPlaylist)
dispatches the caller-supplied locator verbatim, which differs from its
percent-decoding. -/
theorem spec_C6_counterexample :
    m3uUrlOutboundUrl (some "http%3A%2F%2Fexample.com") = some "http%3A%2F%2Fexample.com" ∧
      decodeURIComponent "http%3A%2F%2Fexample.com" = some "http://example.com" ∧
      ("http%3A%2F%2Fexample.com" : String) ≠ "http://example.com" := by decide

/-- C6 amended: only `streamResource` in its `live-stream`
(`GET /api/proxy/stream`) and `download` (`GET /api/download`) purposes
percent-decodes the caller-supplied locator before dispatch;
`fetchPlaylist` (`POST /api/m3u/url`), the `epg-document` fetch
(`POST /api/epg/fetch`) and `checkLiveness` (`POST /api/stream/check`)
dispatch the locator verbatim. -/
theorem spec_C6_amended (u : String) (hu : u ≠ "") :
    proxyStreamOutboundUrl (some u) = decodeURIComponent u ∧
      downloadOutboundUrl (some u) = decodeURIComponent u ∧
      m3uUrlOutboundUrl (some u) = some u ∧
      epgFetchOutboundUrl (some u) = some u ∧
      streamCheckOutboundUrl (some u) = some u := by
  refine ⟨?_, ?_, ?_, ?_, rfl⟩ <;>
    simp [proxyStreamOutboundUrl, downloadOutboundUrl, m3uUrlOutboundUrl,
      epgFetchOutboundUrl, hu]

/-- Witness for the amended C6 at a concrete locator. -/
theorem spec_C6_amended_witness :
    proxyStreamOutboundUrl (some "http%3A%2F%2Fexample.org") =
        decodeURIComponent "http%3A%2F%2Fexample.org" ∧
      downloadOutboundUrl (some "http%3A%2F%2Fexample.org") =
        decodeURIComponent "http%3A%2F%2Fexample.org" ∧
      m3uUrlOutboundUrl (some "http%3A%2F%2Fexample.org") = some "http%3A%2F%2Fexample.org" ∧
      epgFetchOutboundUrl (some "http%3A%2F%2Fexample.org") = some "http%3A%2F%2Fexample.org" ∧
      streamCheckOutboundUrl (some "http%3A%2F%2Fexample.org") =
        some "http%3A%2F%2Fexample.org" :=
  spec_C6_amended "http%3A%2F%2Fexample.org" (by decide)

/-- C7: `checkLiveness` never surfaces a hard failure: for every request
and upstream outcome the HTTP status is 200 (never an error channel) and
the body is either `alive` with content type and status, or `dead` with
the upstream error message — non-empty whenever the upstream message is
(axios error messages always are). -/
theorem spec_C7 (url : Option String) (outcome : UpstreamHead)
    (hmsg : ∀ m, outcome = UpstreamHead.err m → m ≠ "") :
    (streamCheckRespond url outcome).1 = 200 ∧
      ((∃ ct st, streamCheckRespond url outcome = (200, CheckBody.alive ct st)) ∨
        (∃ m, m ≠ "" ∧ streamCheckRespond url outcome = (200, CheckBody.dead m))) := by
  cases outcome with
  | ok ct st => exact ⟨rfl, Or.inl ⟨ct, st, rfl⟩⟩
  | err m => exact ⟨rfl, Or.inr ⟨m, hmsg m rfl, rfl⟩⟩

/-- Witness for C7 on an unreachable host (a timeout message). -/
theorem spec_C7_witness :
    (streamCheckRespond (some "http://down.example")
        (UpstreamHead.err "timeout of 8000ms exceeded")).1 = 200 ∧
      ((∃ ct st, streamCheckRespond (some "http://down.example")
          (UpstreamHead.err "timeout of 8000ms exceeded") = (200, CheckBody.alive ct st)) ∨
        (∃ m, m ≠ "" ∧ streamCheckRespond (some "http://down.example")
          (UpstreamHead.err "timeout of 8000ms exceeded") = (200, CheckBody.dead m))) :=
  spec_C7 (some "http://down.example") (UpstreamHead.err "timeout of 8000ms exceeded")
    (fun m hm => by
      injection hm with h
      rw [← h]
      decide)

/-- C10: at `POST /api/m3u/text` an empty-string content is treated as
absent input: the response is `400 {error:'Content required'}`, never the
success shape, so a successful response only arises from a non-empty
document and `parseM3U ""` is unreachable through this endpoint. -/
theorem spec_C10 (clock : Nat → Nat) (content : Option String)
    (h : content = some "" ∨ content = none) :
    m3uTextHandler clock content = (400, TextBody.err "Content required") ∧
      ∀ chans n, m3uTextHandler clock content ≠ (200, TextBody.ok chans n) := by
  rcases h with rfl | rfl
  · refine ⟨by simp [m3uTextHandler], ?_⟩
    intro chans n
    simp [m3uTextHandler]
  · refine ⟨rfl, ?_⟩
    intro chans n
    simp [m3uTextHandler]

/-- Witness for C10 at the empty-string content. -/
theorem spec_C10_witness :
    m3uTextHandler (fun _ => 0) (some "") = (400, TextBody.err "Content required") :=
  (spec_C10 (fun _ => 0) (some "") (Or.inl rfl)).1
